import Mathlib

/-!
Verification development for the path-resolution and response-recovery core
of the RepoTutor repository.

The two source functions embedded here are:
* `resolveActualPath` from `src/services/githubService.ts` (lines 35-78): a
  five-stage cascade matching an LLM-suggested path against a repository tree.
* `safeJsonParse` from the Gemini service module (`src/unnamed/part_000`,
  lines 9-38): a two-strategy recovery of a JSON value from raw model text.

JavaScript strings are modelled as Lean `String`s viewed as lists of
characters (`String.data`); all inputs of interest are ASCII, where JS
UTF-16 indices and Lean character indices coincide.  The JavaScript builtin
`JSON.parse` is external to the repository, so the recovery function is
parameterized over an arbitrary decoder `parse : String → Except String Json`
(an exception thrown by the decoder is an `Except.error`); a concrete
executable decoder `jsonParse` for a standard JSON subset is supplied for
evaluating the theorems on concrete inputs.
-/

namespace RepoTutor

/-- JSON values, as produced by a JSON decoder.  Numbers are restricted to
integers; none of the embedded logic inspects parsed values, so this subset
only has to cover the concrete inputs used to evaluate the theorems. -/
inductive Json where
| null : Json
| bool (b : Bool) : Json
| num (n : Int) : Json
| str (s : String) : Json
| arr (elems : List Json) : Json
| obj (fields : List (String × Json)) : Json

/-- JSON insignificant whitespace characters. -/
def jsonWs (c : Char) : Bool := [' ', '\t', '\n', '\r'].contains c

/-- The two-character string escapes as an association list (the `\uXXXX`
form is not modelled). -/
def escPairs : List (Char × Char) :=
  [('"', '"'), ('\\', '\\'), ('/', '/'), ('n', '\n'), ('t', '\t'), ('r', '\r'),
   ('b', Char.ofNat 8), ('f', Char.ofNat 12)]

/-- Decode one escape character via `escPairs`. -/
def escChar (c : Char) : Option Char := escPairs.lookup c

/-- Parse the remainder of a JSON string literal (after the opening quote),
returning the decoded characters and the rest of the input. -/
def parseJsonStr : List Char → Option (List Char × List Char)
| [] => none
| '"' :: rest => some ([], rest)
| '\\' :: c :: rest =>
  match escChar c with
  | none => none
  | some e =>
    match parseJsonStr rest with
    | some (s, r) => some (e :: s, r)
    | none => none
| c :: rest =>
  match parseJsonStr rest with
  | some (s, r) => some (c :: s, r)
  | none => none

/-- Parse a run of decimal digits as a natural number. -/
def parseJsonNat (cs : List Char) : Option (Nat × List Char) :=
  let ds := cs.takeWhile Char.isDigit
  if ds.isEmpty then none
  else some (ds.foldl (fun acc c => acc * 10 + (c.toNat - 48)) 0, cs.drop ds.length)

/-- Recognize a literal keyword (`null`, `true`, `false`) as a prefix of the
input, returning the associated value and the remaining characters. -/
def jsonKw (kw : String) (v : Json) (cs : List Char) : Option (Json × List Char) :=
  if kw.data.isPrefixOf cs then some (v, cs.drop kw.length) else none

mutual

/-- Parse one JSON value (fuel-bounded recursive descent). -/
def parseJsonVal : Nat → List Char → Option (Json × List Char)
| 0, _ => none
| fuel + 1, cs =>
  let cs2 := cs.dropWhile jsonWs
  match jsonKw "null" Json.null cs2 <|> jsonKw "true" (Json.bool true) cs2 <|>
        jsonKw "false" (Json.bool false) cs2 with
  | some res => some res
  | none =>
    match cs2 with
    | [] => none
    | c :: rest =>
      if c == '"' then
        (parseJsonStr rest).map (fun p => (Json.str (String.mk p.1), p.2))
      else if c == '[' then
        parseJsonArrTail fuel rest []
      else if c == '{' then
        parseJsonObjTail fuel rest []
      else if c == '-' then
        (parseJsonNat rest).map (fun p => (Json.num (-(p.1 : Int)), p.2))
      else if c.isDigit then
        (parseJsonNat cs2).map (fun p => (Json.num (p.1 : Int), p.2))
      else none

/-- Parse the elements of a JSON array after its opening bracket; an
immediately-closing bracket is admitted only before the first element, so
trailing commas stay rejected. -/
def parseJsonArrTail : Nat → List Char → List Json → Option (Json × List Char)
| 0, _, _ => none
| fuel + 1, cs, acc =>
  match parseJsonVal fuel cs with
  | none =>
    match acc, cs.dropWhile jsonWs with
    | [], ']' :: r => some (Json.arr [], r)
    | _, _ => none
  | some (v, r) =>
    match r.dropWhile jsonWs with
    | ',' :: r2 => parseJsonArrTail fuel r2 (acc ++ [v])
    | ']' :: r2 => some (Json.arr (acc ++ [v]), r2)
    | _ => none

/-- Parse the fields of a JSON object after its opening brace; an
immediately-closing brace is admitted only before the first field. -/
def parseJsonObjTail : Nat → List Char → List (String × Json) → Option (Json × List Char)
| 0, _, _ => none
| fuel + 1, cs, acc =>
  match cs.dropWhile jsonWs with
  | [] => none
  | c :: rest =>
    if c == '}' then
      if acc.isEmpty then some (Json.obj acc, rest) else none
    else if c == '"' then
      match parseJsonStr rest with
      | none => none
      | some (k, r) =>
        match r.dropWhile jsonWs with
        | ':' :: r2 =>
          match parseJsonVal fuel r2 with
          | none => none
          | some (v, r3) =>
            match r3.dropWhile jsonWs with
            | ',' :: r4 => parseJsonObjTail fuel r4 (acc ++ [(String.mk k, v)])
            | '}' :: r4 => some (Json.obj (acc ++ [(String.mk k, v)]), r4)
            | _ => none
        | _ => none
    else none

end

/-- Model of the JavaScript builtin `JSON.parse` (external to the repository):
a strict parse of one JSON value with only surrounding whitespace allowed,
failing (throwing) on anything else.  Restricted to integer numbers and
non-`\u` escapes, which covers every concrete input used below. -/
def jsonParse (s : String) : Except String Json :=
  match parseJsonVal (s.data.length + 1) s.data with
  | some (v, rest) =>
    if (rest.dropWhile jsonWs).isEmpty then Except.ok v
    else Except.error "SyntaxError: unexpected trailing characters in JSON"
  | none => Except.error "SyntaxError: unexpected token in JSON"

/-! ### JavaScript string primitives -/

/-- Whitespace stripped by JavaScript `String.prototype.trim` (ASCII part). -/
def jsWsChar (c : Char) : Bool := ['\t', '\n', '\r', ' '].contains c

/-- Model of JavaScript `trim()`. -/
def jsTrim (s : String) : String :=
  String.mk (((s.data.dropWhile jsWsChar).reverse.dropWhile jsWsChar).reverse)

/-- ASCII lowering of one character, as done by JavaScript `toLowerCase()` on
the ASCII range. -/
def lowerChar (c : Char) : Char :=
  if 65 ≤ c.toNat ∧ c.toNat ≤ 90 then Char.ofNat (c.toNat + 32) else c

/-- Model of JavaScript `toLowerCase()` (ASCII range). -/
def jsLower (s : String) : String := String.mk (s.data.map lowerChar)

/-- Model of JavaScript `split(sep)` for a one-character separator: always
returns a non-empty list of (possibly empty) segments. -/
def splitOnChar (sep : Char) : List Char → List (List Char)
| [] => [[]]
| c :: rest =>
  match splitOnChar sep rest with
  | [] => [[c]]
  | g :: gs => if c == sep then [] :: g :: gs else (c :: g) :: gs

/-- Last element of a segment list (`parts[parts.length - 1]`); the lists
produced by `splitOnChar` are never empty. -/
def lastPart (l : List (List Char)) : List Char := l.getLastD []

/-- Join segments with `/` (JavaScript `Array.prototype.join('/')`). -/
def joinSlash : List (List Char) → List Char
| [] => []
| [x] => x
| x :: xs => x ++ '/' :: joinSlash xs

/-- Model of JavaScript `String.prototype.includes` (substring containment). -/
def containsSub : List Char → List Char → Bool
| [], sub => sub.isEmpty
| c :: rest, sub => sub.isPrefixOf (c :: rest) || containsSub rest sub

/-- Index of the first occurrence of a character (`indexOf` without the `-1`
sentinel). -/
def firstIdxOf (s : String) (c : Char) : Option Nat := s.data.findIdx? (· == c)

/-- Index of the last occurrence of a character (`lastIndexOf` without the
`-1` sentinel). -/
def lastIdxOf (s : String) (c : Char) : Option Nat :=
  (s.data.reverse.findIdx? (· == c)).map (fun i => s.data.length - 1 - i)

/-- Model of JavaScript `indexOf` for a one-character needle: index of the
first occurrence, `-1` when absent. -/
def strIndexOf (s : String) (c : Char) : Int :=
  match firstIdxOf s c with
  | some i => (i : Int)
  | none => -1

/-- Model of JavaScript `lastIndexOf` for a one-character needle: index of
the last occurrence, `-1` when absent. -/
def strLastIndexOf (s : String) (c : Char) : Int :=
  match lastIdxOf s c with
  | some i => (i : Int)
  | none => -1

/-- Model of JavaScript `slice(a, b)` for the non-negative indices at which
the recovery code uses it. -/
def strSlice (s : String) (a b : Int) : String :=
  String.mk ((s.data.drop a.toNat).take (b.toNat - a.toNat))

/-! ### PathResolver (`resolveActualPath`, `src/services/githubService.ts`) -/

/-- One entry of the repository tree (`FileNode` in `src/types.ts`); the
resolver reads only `path` and `type` (the `sha`, `size` and `url` fields are
never consulted), with `type = "blob"` marking a file. -/
structure FileNode where
  path : String
  type : String
deriving DecidableEq, Repr

/-- `n.type === 'blob'`: the entry is a file. -/
def isBlob (n : FileNode) : Bool := n.type == "blob"

/-- Final path segment of an (already lowered) path:
`path.split('/')[parts.length - 1]`. -/
def lastSegOf (s : String) : String := String.mk (lastPart (splitOnChar '/' s.data))

/-- `fileNameOnly` of the source (line 40): final segment of the suggested
path, lowered. -/
def fileNameOnlyOf (s : String) : String :=
  jsLower (String.mk (lastPart (splitOnChar '/' s.data)))

/-- Stage-2/3 predicate (source lines 47-50, 57-60): the candidate's lowered
final segment equals `target` and the candidate is a file. -/
def finalSegPred (target : String) (n : FileNode) : Bool :=
  lastSegOf (jsLower n.path) == target && isBlob n

/-- Stage 1 (source line 43): exact case-insensitive full-path match, with
the suggestion lowered and trimmed. -/
def stage1Find (s : String) (tree : List FileNode) : Option FileNode :=
  tree.find? (fun n => jsLower n.path == jsTrim (jsLower s) && isBlob n)

/-- Stage 2 (source lines 47-50): final-segment match on the bare filename. -/
def stage2Find (s : String) (tree : List FileNode) : Option FileNode :=
  tree.find? (finalSegPred (fileNameOnlyOf s))

/-- The extension cascade of source line 54 (note the leading empty entry). -/
def extensions : List String :=
  ["", ".py", ".js", ".ts", ".md", ".html", ".css", ".json", ".txt",
   ".cpp", ".h", ".java", ".go", ".tsx", ".jsx"]

/-- Stage 3 (source lines 55-62): final-segment match with each candidate
extension appended (unless the filename already contains a dot). -/
def stage3Find (s : String) (tree : List FileNode) : Option FileNode :=
  extensions.findSome? fun ext =>
    tree.find? (finalSegPred (jsLower
      (if (fileNameOnlyOf s).data.contains '.' then fileNameOnlyOf s
       else fileNameOnlyOf s ++ ext)))

/-- Stage 4 (source lines 65-69): two-segment suffix match, attempted only
when the suggestion has more than one segment. -/
def stage4Find (s : String) (tree : List FileNode) : Option FileNode :=
  let pathParts := splitOnChar '/' s.data
  if 1 < pathParts.length then
    let suffix := jsLower (String.mk (joinSlash (pathParts.drop (pathParts.length - 2))))
    tree.find? (fun n => suffix.data.isSuffixOf (jsLower n.path).data && isBlob n)
  else none

/-- The raw stage-5 search (source line 73): first file whose lowered path
contains the lowered filename as a substring. -/
def stage5RawFind (s : String) (tree : List FileNode) : Option FileNode :=
  tree.find? (fun n => containsSub (jsLower n.path).data (fileNameOnlyOf s).data && isBlob n)

/-- Stage 5 (source lines 72-75): the raw containment search, guarded by the
4-character floor on the filename. -/
def stage5Find (s : String) (tree : List FileNode) : Option FileNode :=
  if 4 ≤ (fileNameOnlyOf s).length then stage5RawFind s tree else none

/-- `resolveActualPath` (source lines 35-78): the empty-input guard followed
by the five-stage cascade, each stage running only when all earlier stages
found nothing, returning the matched entry's stored path. -/
def resolveActualPath (suggestedPath : String) (tree : List FileNode) : Option String :=
  if suggestedPath = "" ∨ tree = [] then none
  else
    match stage1Find suggestedPath tree with
    | some n => some n.path
    | none =>
      match stage2Find suggestedPath tree with
      | some n => some n.path
      | none =>
        match stage3Find suggestedPath tree with
        | some n => some n.path
        | none =>
          match stage4Find suggestedPath tree with
          | some n => some n.path
          | none =>
            match stage5Find suggestedPath tree with
            | some n => some n.path
            | none => none

/-- Variant resolver for the refinement claim C5: identical to
`resolveActualPath` except that stage 3 (the extension cascade) is skipped
entirely. -/
def resolveActualPathNoStage3 (suggestedPath : String) (tree : List FileNode) : Option String :=
  if suggestedPath = "" ∨ tree = [] then none
  else
    match stage1Find suggestedPath tree with
    | some n => some n.path
    | none =>
      match stage2Find suggestedPath tree with
      | some n => some n.path
      | none =>
        match stage4Find suggestedPath tree with
        | some n => some n.path
        | none =>
          match stage5Find suggestedPath tree with
          | some n => some n.path
          | none => none

/-! ### StructuredResponseRecovery (`safeJsonParse`, `src/unnamed/part_000`) -/

/-- The terminal failure message of `safeJsonParse` (source line 36). -/
def malformedMsg : String :=
  "The AI provided an invalid data format or the response was truncated. Please try again."

/-- Strategy A (source lines 10-16): trim, strip a leading markdown fence
(`replace(/^` ++ "```" ++ `[a-z]*\n?/i, '')`), strip a trailing fence
(`replace(/\n?` ++ "```" ++ `$/i, '')`), then attempt a direct parse. -/
def stripOpenFence (s : String) : String :=
  if "```".data.isPrefixOf s.data then
    match (s.data.drop 3).dropWhile Char.isAlpha with
    | '\n' :: r2 => String.mk r2
    | r => String.mk r
  else s

/-- Removal of a trailing markdown fence line, when present. -/
def stripCloseFence (s : String) : String :=
  if "```".data.isSuffixOf s.data then
    let r := s.data.take (s.data.length - 3)
    match r.getLast? with
    | some c => if c == '\n' then String.mk (r.take (r.length - 1)) else String.mk r
    | none => String.mk r
  else s

/-- Strategy A of `safeJsonParse` (source lines 10-16). -/
def strategyA (parse : String → Except String Json) (text : String) : Except String Json :=
  let cleaned := jsTrim text
  parse (if "```".data.isPrefixOf cleaned.data
         then stripCloseFence (stripOpenFence cleaned) else cleaned)

/-- Strategy B's start index (source lines 21-23): first `{` when it exists
and no `[` occurs before it, otherwise first `[`, with `-1` for absence. -/
def bStartIdx (text : String) : Int :=
  let startObj := strIndexOf text '{'
  let startArr := strIndexOf text '['
  if startObj ≠ -1 ∧ (startArr = -1 ∨ startObj < startArr) then startObj else startArr

/-- Strategy B's end index (source lines 25-27): last `}` when it exists and
no `]` occurs after it, otherwise last `]`, with `-1` for absence. -/
def bEndIdx (text : String) : Int :=
  let endObj := strLastIndexOf text '}'
  let endArr := strLastIndexOf text ']'
  if endObj ≠ -1 ∧ (endArr = -1 ∨ endObj > endArr) then endObj else endArr

/-- The slice Strategy B submits to the decoder, when its guard
`start !== -1 && end !== -1 && end > start` holds (source lines 29-31). -/
def bSliceOf (text : String) : Option String :=
  if bStartIdx text ≠ -1 ∧ bEndIdx text ≠ -1 ∧ bEndIdx text > bStartIdx text
  then some (strSlice text (bStartIdx text) (bEndIdx text + 1)) else none

/-- `safeJsonParse` (source lines 9-38): Strategy A, then on its failure the
boundary-slice Strategy B, then the terminal fixed-message failure.  Each
decoder failure is caught at its strategy's boundary (the `try`/`catch`
pairs of the source). -/
def safeJsonParse (parse : String → Except String Json) (text : String) : Except String Json :=
  match strategyA parse text with
  | Except.ok v => Except.ok v
  | Except.error _ =>
    let start := bStartIdx text
    let stop := bEndIdx text
    if start ≠ -1 ∧ stop ≠ -1 ∧ stop > start then
      match parse (strSlice text start (stop + 1)) with
      | Except.ok v => Except.ok v
      | Except.error _ => Except.error malformedMsg
    else Except.error malformedMsg

/-! ### Claim-side definitions

These definitions transcribe the wording of individual claims (for
refinement-style comparisons against the code-side definitions above). -/

/-- The fixed extension list exactly as claim C4 states it: the code-side
`extensions` list without its leading empty string. -/
def c4Extensions : List String :=
  [".py", ".js", ".ts", ".md", ".html", ".css", ".json", ".txt",
   ".cpp", ".h", ".java", ".go", ".tsx", ".jsx"]

/-- The stage-3 search as claim C4 words it: append each extension of the
fixed list to the filename, in that literal order, and return the first
final-segment match over file entries. -/
def c4ExtFind (s : String) (tree : List FileNode) : Option FileNode :=
  c4Extensions.findSome? fun ext => tree.find? (finalSegPred (fileNameOnlyOf s ++ ext))

/-- Strategy B's start index as claim C3 words it: the index of the first
`{` if a `{` exists and either no `[` exists or the `{` occurs before the
`[`, and otherwise the index of the first `[` (absent when neither
exists). -/
def c3Start (text : String) : Option Nat :=
  match firstIdxOf text '{', firstIdxOf text '[' with
  | some i, none => some i
  | some i, some j => some (if i < j then i else j)
  | none, r => r

/-- Strategy B's end index as claim C3 words it: the later of the last `}`
and the last `]` (absent when neither exists). -/
def c3End (text : String) : Option Nat :=
  match lastIdxOf text '}', lastIdxOf text ']' with
  | some i, none => some i
  | some i, some j => some (if j < i then i else j)
  | none, r => r

/-! ### Helper lemmas -/

theorem char_toNat_ofNat (n : Nat) (h : n < 55296) : (Char.ofNat n).toNat = n := by
  unfold Char.ofNat
  rw [dif_pos (Or.inl h)]
  simp [Char.ofNatAux, Char.toNat, UInt32.toNat]

theorem lowerChar_idem (c : Char) : lowerChar (lowerChar c) = lowerChar c := by
  unfold lowerChar
  by_cases h : 65 ≤ c.toNat ∧ c.toNat ≤ 90
  · rw [if_pos h]
    have h2 : (Char.ofNat (c.toNat + 32)).toNat = c.toNat + 32 :=
      char_toNat_ofNat _ (by omega)
    rw [if_neg (by omega)]
  · rw [if_neg h, if_neg h]

theorem jsLower_idem (s : String) : jsLower (jsLower s) = jsLower s := by
  unfold jsLower
  dsimp only
  rw [List.map_map]
  exact congrArg String.mk (List.map_congr_left (fun c _ => lowerChar_idem c))

theorem jsLower_append (a b : String) : jsLower (a ++ b) = jsLower a ++ jsLower b := by
  cases a with
  | mk da =>
    cases b with
    | mk db =>
      show String.mk (List.map lowerChar (da ++ db)) = String.mk _
      rw [List.map_append]

theorem fileNameOnly_lower (s : String) : jsLower (fileNameOnlyOf s) = fileNameOnlyOf s := by
  unfold fileNameOnlyOf
  exact jsLower_idem _

theorem findSome?_congr {α β : Type} {f g : α → Option β} :
    ∀ (l : List α), (∀ a ∈ l, f a = g a) → l.findSome? f = l.findSome? g
  | [], _ => rfl
  | a :: l, h => by
    rw [List.findSome?_cons, List.findSome?_cons, h a (List.mem_cons_self a l),
        findSome?_congr l (fun x hx => h x (List.mem_cons_of_mem a hx))]

theorem find?_some_blob {pred : FileNode → Bool} {tree : List FileNode} {n : FileNode}
    (hpred : ∀ m, pred m = true → isBlob m = true)
    (h : tree.find? pred = some n) : n ∈ tree ∧ n.type = "blob" := by
  refine ⟨List.mem_of_find?_eq_some h, ?_⟩
  have hb := hpred n (List.find?_some h)
  unfold isBlob at hb
  exact beq_iff_eq.mp hb

theorem find?_ne_nil {pred : FileNode → Bool} {tree : List FileNode} {n : FileNode}
    (h : tree.find? pred = some n) : tree ≠ [] := by
  intro he
  rw [he] at h
  cases h

theorem exists_of_findSome?_some {α β : Type} {f : α → Option β} {b : β} :
    ∀ {l : List α}, l.findSome? f = some b → ∃ a ∈ l, f a = some b
  | [], h => by cases h
  | a :: l, h => by
    rw [List.findSome?_cons] at h
    cases hf : f a with
    | some v =>
      rw [hf] at h
      cases h
      exact ⟨a, List.mem_cons_self a l, hf⟩
    | none =>
      rw [hf] at h
      obtain ⟨x, hx, hfx⟩ := exists_of_findSome?_some h
      exact ⟨x, List.mem_cons_of_mem a hx, hfx⟩

/-! ### Claim theorems -/

/-- Claim C6 (confirmed): for every entry list, `resolve` returns null
immediately whenever the suggested path is the empty string or the entry
list is empty. -/
theorem c6_empty_inputs (s : String) (tree : List FileNode) (h : s = "" ∨ tree = []) :
    resolveActualPath s tree = none := by
  unfold resolveActualPath
  rw [if_pos h]

/-- Witness for C6 at a concrete input: the empty suggestion against a
non-empty tree resolves to none. -/
theorem c6_witness :
    (("" : String) = "" ∨ ([⟨"a", "blob"⟩] : List FileNode) = []) ∧
    resolveActualPath "" [⟨"a", "blob"⟩] = none :=
  ⟨Or.inl rfl, c6_empty_inputs "" [⟨"a", "blob"⟩] (Or.inl rfl)⟩

/-- Claim C9 (confirmed): for every decoder and every input text, the only
failure `safeJsonParse` can surface is the fixed `MalformedResponse`
message; decoder failures raised inside Strategy A or Strategy B are caught
at the strategy boundary and never escape. -/
theorem c9_only_malformed_surfaces (parse : String → Except String Json) (text e : String)
    (h : safeJsonParse parse text = Except.error e) : e = malformedMsg := by
  unfold safeJsonParse at h
  cases hA : strategyA parse text with
  | ok v => rw [hA] at h; cases h
  | error e2 =>
    rw [hA] at h
    dsimp only at h
    split at h
    · cases hp : parse (strSlice text (bStartIdx text) (bEndIdx text + 1)) with
      | ok v => rw [hp] at h; cases h
      | error e3 => rw [hp] at h; cases h; rfl
    · cases h; rfl

/-- Witness for C9 at a concrete input: a decoder that always throws a raw
`SyntaxError` still surfaces only the fixed message. -/
theorem c9_witness :
    safeJsonParse (fun _ => Except.error "SyntaxError: boom") "x" = Except.error malformedMsg ∧
    malformedMsg = malformedMsg :=
  ⟨rfl, c9_only_malformed_surfaces (fun _ => Except.error "SyntaxError: boom") "x"
    malformedMsg rfl⟩

/-- Claim C8 (confirmed): both `resolveActualPath` and `safeJsonParse` are
deterministic pure functions — two calls with identical inputs produce
structurally equal outputs (the embedding models both source functions as
pure functions of their inputs; their only side effects in the source are
`console.error` diagnostics, which do not influence the result). -/
theorem c8_deterministic (s1 s2 : String) (t1 t2 : List FileNode)
    (parse : String → Except String Json) (x1 x2 : String)
    (hs : s1 = s2) (ht : t1 = t2) (hx : x1 = x2) :
    resolveActualPath s1 t1 = resolveActualPath s2 t2 ∧
    safeJsonParse parse x1 = safeJsonParse parse x2 := by
  subst hs; subst ht; subst hx
  exact ⟨rfl, rfl⟩

/-- Witness for C8 at a concrete input: two calls of `recover` on the same
fenced valid input (and of `resolve` on the same path and tree) agree. -/
theorem c8_witness :
    ("foo" : String) = "foo" ∧
    ([⟨"foo.js", "blob"⟩] : List FileNode) = [⟨"foo.js", "blob"⟩] ∧
    ("```json\n\x7b\"a\":1\x7d\n```" : String) = "```json\n\x7b\"a\":1\x7d\n```" ∧
    (resolveActualPath "foo" [⟨"foo.js", "blob"⟩] = resolveActualPath "foo" [⟨"foo.js", "blob"⟩] ∧
     safeJsonParse jsonParse "```json\n\x7b\"a\":1\x7d\n```" =
       safeJsonParse jsonParse "```json\n\x7b\"a\":1\x7d\n```") :=
  ⟨rfl, rfl, rfl,
   c8_deterministic "foo" "foo" [⟨"foo.js", "blob"⟩] [⟨"foo.js", "blob"⟩]
     jsonParse "```json\n\x7b\"a\":1\x7d\n```" "```json\n\x7b\"a\":1\x7d\n```" rfl rfl rfl⟩

/-- Claim C10 (confirmed): every non-null result of `resolve` is the stored
`path` of some entry of kind file in the supplied list — the stored casing,
never the lowered comparison form or a fabricated string. -/
theorem c10_result_is_stored_path (s : String) (tree : List FileNode) (p : String)
    (h : resolveActualPath s tree = some p) :
    ∃ n, n ∈ tree ∧ n.type = "blob" ∧ n.path = p := by
  unfold resolveActualPath at h
  split at h
  · cases h
  · cases h1 : stage1Find s tree with
    | some n =>
      rw [h1] at h
      cases h
      obtain ⟨hm, hb⟩ := find?_some_blob
        (fun m hp => (Bool.and_eq_true _ _ |>.mp hp).2) h1
      exact ⟨n, hm, hb, rfl⟩
    | none =>
    rw [h1] at h
    cases h2 : stage2Find s tree with
    | some n =>
      rw [h2] at h
      cases h
      obtain ⟨hm, hb⟩ := find?_some_blob
        (fun m hp => (Bool.and_eq_true _ _ |>.mp hp).2) h2
      exact ⟨n, hm, hb, rfl⟩
    | none =>
    rw [h2] at h
    cases h3 : stage3Find s tree with
    | some n =>
      rw [h3] at h
      cases h
      obtain ⟨ext, _, hfind⟩ := exists_of_findSome?_some h3
      obtain ⟨hm, hb⟩ := find?_some_blob
        (fun m hp => (Bool.and_eq_true _ _ |>.mp hp).2) hfind
      exact ⟨n, hm, hb, rfl⟩
    | none =>
    rw [h3] at h
    cases h4 : stage4Find s tree with
    | some n =>
      rw [h4] at h
      cases h
      unfold stage4Find at h4
      dsimp only at h4
      split at h4
      · obtain ⟨hm, hb⟩ := find?_some_blob
          (fun m hp => (Bool.and_eq_true _ _ |>.mp hp).2) h4
        exact ⟨n, hm, hb, rfl⟩
      · cases h4
    | none =>
    rw [h4] at h
    cases h5 : stage5Find s tree with
    | some n =>
      rw [h5] at h
      cases h
      unfold stage5Find stage5RawFind at h5
      split at h5
      · obtain ⟨hm, hb⟩ := find?_some_blob
          (fun m hp => (Bool.and_eq_true _ _ |>.mp hp).2) h5
        exact ⟨n, hm, hb, rfl⟩
      · cases h5
    | none =>
      rw [h5] at h
      cases h

/-- Witness for C10 at a concrete input: a case-mismatched suggestion
resolves to the entry's stored (lowercase) path, which belongs to the
tree. -/
theorem c10_witness :
    resolveActualPath "A" [⟨"a", "blob"⟩] = some "a" ∧
    ∃ n, n ∈ ([⟨"a", "blob"⟩] : List FileNode) ∧ n.type = "blob" ∧ n.path = "a" :=
  ⟨rfl, c10_result_is_stored_path "A" [⟨"a", "blob"⟩] "a" rfl⟩

/-- Counterexample to claim C1 as stated: with the empty suggested path and
an entry whose path is the empty string, an entry of kind file does have a
full (lowered) path equal to the (lowered, trimmed) suggestion — it is the
first such entry — yet `resolve` returns none (the empty-input guard fires
before stage 1), not that entry's path. -/
theorem c1_counterexample :
    stage1Find "" [⟨"", "blob"⟩] = some ⟨"", "blob"⟩ ∧
    resolveActualPath "" [⟨"", "blob"⟩] = none :=
  ⟨rfl, rfl⟩

/-- Claim C1 (amended: the suggested path must be non-empty, otherwise the
empty-input guard bypasses every stage): if some entry of kind file has a
full path equal — after lowercasing, with the suggestion also trimmed — to
the suggested path, then `resolve` returns the path of the first such entry
in the list, regardless of what later stages would match. -/
theorem c1_exact_match_first (s : String) (tree : List FileNode) (n : FileNode)
    (hs : s ≠ "")
    (h : stage1Find s tree = some n) :
    resolveActualPath s tree = some n.path := by
  unfold resolveActualPath
  rw [if_neg (not_or.mpr ⟨hs, find?_ne_nil h⟩), h]

/-- Witness for (amended) C1 at a concrete input: the exact
case-insensitive match wins even though an earlier list entry would match
the later filename-only stage. -/
theorem c1_witness :
    (("readme.md" : String) ≠ "") ∧
    stage1Find "readme.md" [⟨"docs/README.md", "blob"⟩, ⟨"README.md", "blob"⟩] =
      some ⟨"README.md", "blob"⟩ ∧
    resolveActualPath "readme.md" [⟨"docs/README.md", "blob"⟩, ⟨"README.md", "blob"⟩] =
      some "README.md" :=
  ⟨by decide, by decide,
   c1_exact_match_first "readme.md" [⟨"docs/README.md", "blob"⟩, ⟨"README.md", "blob"⟩]
     ⟨"README.md", "blob"⟩ (by decide) (by decide)⟩

theorem stage3_eq_c4 (s : String) (tree : List FileNode)
    (hdot : (fileNameOnlyOf s).data.contains '.' = false)
    (h2 : stage2Find s tree = none) :
    stage3Find s tree = c4ExtFind s tree := by
  have hexts : ∀ ext ∈ extensions, jsLower ext = ext := by decide
  have key : stage3Find s tree =
      extensions.findSome? (fun ext => tree.find? (finalSegPred (fileNameOnlyOf s ++ ext))) := by
    unfold stage3Find
    refine findSome?_congr extensions (fun ext hext => ?_)
    rw [hdot]
    rw [if_neg (by simp)]
    rw [jsLower_append, fileNameOnly_lower, hexts ext hext]
  rw [key, show extensions = "" :: c4Extensions from rfl, List.findSome?_cons]
  have h0 : tree.find? (finalSegPred (fileNameOnlyOf s ++ "")) = none := by
    rw [String.append_empty]
    exact h2
  rw [h0]
  rfl

/-- Counterexample to claim C4 as stated: for the empty suggested path
(whose final segment contains no dot) against the single entry `.py`,
stages 1 and 2 find nothing and the claim's extension cascade produces the
`.py` entry as its first final-segment match, yet `resolve` returns none
(the empty-input guard bypasses stage 3 entirely). -/
theorem c4_counterexample :
    (fileNameOnlyOf "").data.contains '.' = false ∧
    stage1Find "" [⟨".py", "blob"⟩] = none ∧
    stage2Find "" [⟨".py", "blob"⟩] = none ∧
    c4ExtFind "" [⟨".py", "blob"⟩] = some ⟨".py", "blob"⟩ ∧
    resolveActualPath "" [⟨".py", "blob"⟩] = none := by
  refine ⟨rfl, rfl, rfl, by decide, rfl⟩

/-- Claim C4 (amended: the suggested path must be non-empty, otherwise the
empty-input guard bypasses every stage): whenever the final segment of the
suggested path contains no dot and stages 1 and 2 find nothing, stage 3
appends each extension of the fixed list `.py, .js, .ts, .md, .html, .css,
.json, .txt, .cpp, .h, .java, .go, .tsx, .jsx` in that literal order and
`resolve` returns the first final-segment match so produced. -/
theorem c4_extension_cascade (s : String) (tree : List FileNode) (n : FileNode)
    (hs : s ≠ "")
    (hdot : (fileNameOnlyOf s).data.contains '.' = false)
    (h1 : stage1Find s tree = none)
    (h2 : stage2Find s tree = none)
    (h3 : c4ExtFind s tree = some n) :
    resolveActualPath s tree = some n.path := by
  have htree : tree ≠ [] := by
    obtain ⟨ext, _, hfind⟩ := exists_of_findSome?_some h3
    exact find?_ne_nil hfind
  unfold resolveActualPath
  rw [if_neg (not_or.mpr ⟨hs, htree⟩), h1, h2, stage3_eq_c4 s tree hdot h2, h3]

/-- Witness for (amended) C4 at the claim's own concrete input: suggestion
`foo` against entries `foo.ts`, `foo.js` (in that list order) resolves to
`foo.js`, because `.js` precedes `.ts` in the extension cascade. -/
theorem c4_witness :
    (("foo" : String) ≠ "") ∧
    (fileNameOnlyOf "foo").data.contains '.' = false ∧
    stage1Find "foo" [⟨"foo.ts", "blob"⟩, ⟨"foo.js", "blob"⟩] = none ∧
    stage2Find "foo" [⟨"foo.ts", "blob"⟩, ⟨"foo.js", "blob"⟩] = none ∧
    c4ExtFind "foo" [⟨"foo.ts", "blob"⟩, ⟨"foo.js", "blob"⟩] = some ⟨"foo.js", "blob"⟩ ∧
    resolveActualPath "foo" [⟨"foo.ts", "blob"⟩, ⟨"foo.js", "blob"⟩] = some "foo.js" :=
  ⟨by decide, by decide, by decide, by decide, by decide,
   c4_extension_cascade "foo" [⟨"foo.ts", "blob"⟩, ⟨"foo.js", "blob"⟩] ⟨"foo.js", "blob"⟩
     (by decide) (by decide) (by decide) (by decide) (by decide)⟩

theorem stage3_none_of_dot (s : String) (tree : List FileNode)
    (hdot : (fileNameOnlyOf s).data.contains '.' = true)
    (h2 : stage2Find s tree = none) :
    stage3Find s tree = none := by
  unfold stage3Find
  refine List.findSome?_eq_none_iff.mpr (fun ext _ => ?_)
  rw [hdot]
  rw [if_pos rfl]
  rw [fileNameOnly_lower]
  exact h2

/-- Claim C5 (confirmed): for every suggested path whose final segment
already contains a dot, `resolve` behaves identically to the variant
resolver with stage 3 removed — when the filename has a dot, every stage-3
search coincides with the stage-2 search, which has already failed by the
time stage 3 runs. -/
theorem c5_stage3_skippable (s : String) (tree : List FileNode)
    (hdot : (fileNameOnlyOf s).data.contains '.' = true) :
    resolveActualPath s tree = resolveActualPathNoStage3 s tree := by
  unfold resolveActualPath resolveActualPathNoStage3
  by_cases hg : s = "" ∨ tree = []
  · rw [if_pos hg, if_pos hg]
  · rw [if_neg hg, if_neg hg]
    cases h1 : stage1Find s tree with
    | some n => rfl
    | none =>
      cases h2 : stage2Find s tree with
      | some n => rfl
      | none => rw [stage3_none_of_dot s tree hdot h2]

/-- Witness for C5 at a concrete input: a dotted suggestion resolves
identically with and without stage 3. -/
theorem c5_witness :
    (fileNameOnlyOf "a.b").data.contains '.' = true ∧
    resolveActualPath "a.b" [⟨"c", "blob"⟩] = resolveActualPathNoStage3 "a.b" [⟨"c", "blob"⟩] :=
  ⟨by decide, c5_stage3_skippable "a.b" [⟨"c", "blob"⟩] (by decide)⟩

/-- Claim C7 (confirmed): when stages 1 through 4 find nothing, the result
is exactly the guarded stage-5 search — null whenever the stripped filename
is shorter than 4 characters, and otherwise the path of the first file
entry whose full lowered path contains the lowered filename as a
substring (null when none does). -/
theorem c7_partial_floor (s : String) (tree : List FileNode)
    (h1 : stage1Find s tree = none) (h2 : stage2Find s tree = none)
    (h3 : stage3Find s tree = none) (h4 : stage4Find s tree = none) :
    resolveActualPath s tree =
      if 4 ≤ (fileNameOnlyOf s).length then (stage5RawFind s tree).map FileNode.path
      else none := by
  unfold resolveActualPath
  by_cases hg : s = "" ∨ tree = []
  · rw [if_pos hg]
    rcases hg with hgs | hgt
    · subst hgs
      rw [show (fileNameOnlyOf "").length = 0 from rfl]
      rw [if_neg (by omega)]
    · subst hgt
      rw [show stage5RawFind s [] = none from rfl]
      split <;> rfl
  · rw [if_neg hg, h1, h2, h3, h4]
    unfold stage5Find
    by_cases h5 : 4 ≤ (fileNameOnlyOf s).length
    · rw [if_pos h5, if_pos h5]
      cases hr : stage5RawFind s tree <;> simp [hr]
    · rw [if_neg h5, if_neg h5]

/-- Witness for C7 at a concrete input: a 4-character filename with no
earlier-stage match resolves through the stage-5 containment search. -/
theorem c7_witness :
    stage1Find "abcd" [⟨"src/xabcdy.txt", "blob"⟩] = none ∧
    stage2Find "abcd" [⟨"src/xabcdy.txt", "blob"⟩] = none ∧
    stage3Find "abcd" [⟨"src/xabcdy.txt", "blob"⟩] = none ∧
    stage4Find "abcd" [⟨"src/xabcdy.txt", "blob"⟩] = none ∧
    resolveActualPath "abcd" [⟨"src/xabcdy.txt", "blob"⟩] =
      (if 4 ≤ (fileNameOnlyOf "abcd").length
       then (stage5RawFind "abcd" [⟨"src/xabcdy.txt", "blob"⟩]).map FileNode.path
       else none) :=
  ⟨by decide, by decide, by decide, by decide,
   c7_partial_floor "abcd" [⟨"src/xabcdy.txt", "blob"⟩]
     (by decide) (by decide) (by decide) (by decide)⟩

theorem bStartIdx_eq (text : String) :
    bStartIdx text = (match c3Start text with | some a => (a : Int) | none => -1) := by
  unfold bStartIdx c3Start strIndexOf
  dsimp only
  rcases h1 : firstIdxOf text '{' with _ | i <;>
    rcases h2 : firstIdxOf text '[' with _ | j <;> dsimp only
  · simp
  · simp
  · rw [if_pos ⟨by omega, Or.inl rfl⟩]
  · by_cases hij : i < j
    · rw [if_pos ⟨by omega, Or.inr (by exact_mod_cast hij)⟩]
      rw [if_pos hij]
    · rw [if_neg ?_]
      · rw [if_neg hij]
      · rintro ⟨-, h | h⟩
        · omega
        · exact hij (by exact_mod_cast h)

theorem bEndIdx_eq (text : String) :
    bEndIdx text = (match c3End text with | some b => (b : Int) | none => -1) := by
  unfold bEndIdx c3End strLastIndexOf
  dsimp only
  rcases h1 : lastIdxOf text '}' with _ | i <;>
    rcases h2 : lastIdxOf text ']' with _ | j <;> dsimp only
  · simp
  · simp
  · rw [if_pos ⟨by omega, Or.inl rfl⟩]
  · by_cases hji : j < i
    · rw [if_pos ⟨by omega, Or.inr (by exact_mod_cast hji)⟩]
      rw [if_pos hji]
    · rw [if_neg ?_]
      · rw [if_neg hji]
      · rintro ⟨-, h | h⟩
        · omega
        · exact hji (by exact_mod_cast h)

/-- Claim C3 (confirmed): whenever Strategy A's parse fails, the result of
`safeJsonParse` is exactly the claim's description of Strategy B — start
index the first `{` when one exists and no `[` precedes it (otherwise the
first `[`), end index the later of the last `}` and last `]`, and the
inclusive slice parsed exactly when both indices exist with end strictly
after start (with the terminal failure otherwise). -/
theorem c3_boundary_slice (parse : String → Except String Json) (text e : String)
    (hA : strategyA parse text = Except.error e) :
    safeJsonParse parse text =
      (match c3Start text, c3End text with
       | some a, some b =>
         if a < b then
           match parse (String.mk ((text.data.drop a).take (b - a + 1))) with
           | Except.ok v => Except.ok v
           | Except.error _ => Except.error malformedMsg
         else Except.error malformedMsg
       | _, _ => Except.error malformedMsg) := by
  unfold safeJsonParse
  rw [hA]
  dsimp only
  rw [bStartIdx_eq, bEndIdx_eq]
  cases hs : c3Start text with
  | none =>
    cases he : c3End text with
    | none =>
      dsimp only
      rw [if_neg (by rintro ⟨h, -⟩; exact h rfl)]
    | some b =>
      dsimp only
      rw [if_neg (by rintro ⟨h, -⟩; exact h rfl)]
  | some a =>
    cases he : c3End text with
    | none =>
      dsimp only
      rw [if_neg (by rintro ⟨-, h, -⟩; exact h rfl)]
    | some b =>
      dsimp only
      by_cases hab : a < b
      · rw [if_pos ⟨by omega, by omega, by exact_mod_cast hab⟩]
        rw [if_pos hab]
        have hslice : strSlice text (a : Int) ((b : Int) + 1) =
            String.mk ((text.data.drop a).take (b - a + 1)) := by
          unfold strSlice
          rw [Int.toNat_natCast, Int.toNat_natCast_add_one,
              show b + 1 - a = b - a + 1 from by omega]
        rw [hslice]
      · rw [if_neg ?_]
        · rw [if_neg hab]
        · rintro ⟨-, -, hgt⟩
          exact hab (by exact_mod_cast hgt)

/-- Witness for C3 at a concrete input (the spec's boundary-slice example):
Strategy A fails on the leading prose and Strategy B recovers the embedded
object through the first-brace/last-brace slice. -/
theorem c3_witness :
    strategyA jsonParse "Here is the result: \x7b\"a\":1\x7d Hope that helps!" =
      Except.error "SyntaxError: unexpected token in JSON" ∧
    safeJsonParse jsonParse "Here is the result: \x7b\"a\":1\x7d Hope that helps!" =
      Except.ok (Json.obj [("a", Json.num 1)]) := by
  refine ⟨rfl, ?_⟩
  rw [c3_boundary_slice jsonParse "Here is the result: \x7b\"a\":1\x7d Hope that helps!"
    "SyntaxError: unexpected token in JSON" rfl]
  rfl

/-- Counterexample to claim C2 as stated: on the spec's own terminal-failure
input, both strategies fail and the surfaced failure value is the fixed
message, which does not contain the original raw text — the original text
is only written to the console log, not preserved in the failure value. -/
theorem c2_counterexample :
    safeJsonParse jsonParse "no json here at all" = Except.error malformedMsg ∧
    containsSub malformedMsg.data "no json here at all".data = false := by
  exact ⟨rfl, by decide⟩

/-- Claim C2 (amended: the failure value carries a fixed diagnostic message
rather than the original raw text, which the source only logs to the
console): for every input on which Strategy A fails and Strategy B's slice
either does not exist or fails to parse, `recover` fails terminally with
the `MalformedResponse` message. -/
theorem c2_fixed_failure (parse : String → Except String Json) (text eA : String)
    (hA : strategyA parse text = Except.error eA)
    (hB : ∀ sl, bSliceOf text = some sl → ∃ eB, parse sl = Except.error eB) :
    safeJsonParse parse text = Except.error malformedMsg := by
  unfold safeJsonParse
  rw [hA]
  dsimp only
  by_cases hc : bStartIdx text ≠ -1 ∧ bEndIdx text ≠ -1 ∧ bEndIdx text > bStartIdx text
  · rw [if_pos hc]
    obtain ⟨eB, hpB⟩ := hB (strSlice text (bStartIdx text) (bEndIdx text + 1))
      (by unfold bSliceOf; rw [if_pos hc])
    rw [hpB]
  · rw [if_neg hc]

/-- Witness for (amended) C2 at the spec's terminal-failure input, where no
slice exists at all. -/
theorem c2_witness :
    strategyA jsonParse "no json here at all" =
      Except.error "SyntaxError: unexpected token in JSON" ∧
    safeJsonParse jsonParse "no json here at all" = Except.error malformedMsg := by
  refine ⟨rfl, ?_⟩
  exact c2_fixed_failure jsonParse "no json here at all"
    "SyntaxError: unexpected token in JSON" rfl
    (by
      intro sl hsl
      rw [show bSliceOf "no json here at all" = none from rfl] at hsl
      cases hsl)

end RepoTutor
